import Mathlib

/-!
# Verification of the hold'em coordinator frontend against its specification

Shallow embedding of the client-side code of the hold'em room coordinator
(`src/frontend`): the chip-display arithmetic (`ChipDisplay.tsx`), the betting
action panel (`ActionPanel.tsx`), the settlement panel (`SettlementPanel.tsx`),
the room page rebuy/cashout/win-animation logic (`RoomPage.tsx`), the
WebSocket close handling (`useRoomWebSocket.ts`) and the device-identity store
(`store.ts`).  JavaScript numbers on the integer inputs these functions
receive are modelled as `ℕ`/`ℤ`, with `Math.floor`/`Math.round` made explicit
through `ℚ` where the source divides.
-/

namespace Holdem

/-! ## JavaScript numeric primitives

The source applies `Math.floor` and `Math.round` to quotients of non-negative
integers.  We embed the quotient exactly in `ℚ`; `Math.round x` on JavaScript
numbers is `⌊x + 1/2⌋` (halfway cases round toward +∞). -/

/-- `Math.floor(a / b)` for non-negative integers `a`, `b`, via the exact
rational quotient. -/
def jsFloorDiv (a b : ℕ) : ℤ := ⌊(a : ℚ) / (b : ℚ)⌋

/-- `Math.round x` for a JavaScript number: `⌊x + 1/2⌋`. -/
def jsRound (x : ℚ) : ℤ := ⌊x + 1 / 2⌋

theorem jsFloorDiv_eq_natDiv (a b : ℕ) : jsFloorDiv a b = ((a / b : ℕ) : ℤ) := by
  unfold jsFloorDiv
  rw [show ((a : ℚ) / (b : ℚ)) = ((a : ℤ) : ℚ) / ((b : ℕ) : ℚ) by push_cast; ring,
    Rat.floor_intCast_div_natCast]
  exact (Int.natCast_div a b).symm

/-! ## `ChipDisplay.tsx`: chip decomposition and snapping

```ts
const CHIP_DENOMINATIONS = [500, 100, 50, 25, 10, 5] as const;

export function decomposeChips(amount: number): { denom: ChipDenom; count: number }[] {
  const result = [];
  let remaining = amount;
  for (const d of CHIP_DENOMINATIONS) {
    const count = Math.floor(remaining / d);
    if (count > 0) { result.push({ denom: d, count }); remaining -= count * d; }
  }
  return result;
}

export function snapToChip(value: number): number {
  return Math.round(value / 5) * 5;
}
```
-/

def CHIP_DENOMINATIONS : List ℕ := [500, 100, 50, 25, 10, 5]

/-- One iteration of the `decomposeChips` loop over the denomination list:
`count = Math.floor(remaining / d)` (ordinary `ℕ` division, as `remaining` and
`d` are non-negative integers), pairs with zero count are skipped, and
`remaining` drops by `count * d` (i.e. to `remaining % d`). -/
def decomposeGo : List ℕ → ℕ → List (ℕ × ℕ)
  | [], _ => []
  | d :: ds, remaining =>
    let count := remaining / d
    if count > 0 then (d, count) :: decomposeGo ds (remaining - count * d)
    else decomposeGo ds remaining

/-- `decomposeChips` from `ChipDisplay.tsx`. -/
def decomposeChips (amount : ℕ) : List (ℕ × ℕ) :=
  decomposeGo CHIP_DENOMINATIONS amount

/-- Total chip value represented by a decomposition. -/
def chipTotal (cs : List (ℕ × ℕ)) : ℕ :=
  (cs.map fun c => c.1 * c.2).sum

/-- `snapToChip` from `ChipDisplay.tsx`, on its non-negative integer inputs. -/
def snapToChip (value : ℕ) : ℕ := (jsRound ((value : ℚ) / 5) * 5).toNat

theorem jsRound_div_five (v : ℕ) : jsRound ((v : ℚ) / 5) = (((2 * v + 5) / 10 : ℕ) : ℤ) := by
  unfold jsRound
  rw [show ((v : ℚ) / 5 + 1 / 2) = (((2 * v + 5 : ℕ) : ℚ) / ((10 : ℕ) : ℚ)) by
    push_cast; ring]
  rw [show (((2 * v + 5 : ℕ) : ℚ)) = (((2 * v + 5 : ℕ) : ℤ) : ℚ) by push_cast; ring,
    Rat.floor_intCast_div_natCast]
  exact (Int.natCast_div _ _).symm

/-- Closed form for `snapToChip`: round `value` to the nearest multiple of 5
(halfway cases upward). -/
theorem snapToChip_eq (v : ℕ) : snapToChip v = ((2 * v + 5) / 10) * 5 := by
  unfold snapToChip
  rw [jsRound_div_five]
  rw [show ((((2 * v + 5) / 10 : ℕ) : ℤ) * 5) = ((((2 * v + 5) / 10) * 5 : ℕ) : ℤ) by
    push_cast; ring]
  exact Int.toNat_natCast _

/-- Residual left by the `decomposeChips` loop: fold `%` over the
denominations. -/
def decomposeResidual (ds : List ℕ) (r : ℕ) : ℕ :=
  ds.foldl (fun a d => a % d) r

theorem decomposeGo_remaining (d r : ℕ) : r - r / d * d = r % d := by
  have h : d * (r / d) + r % d = r := Nat.div_add_mod r d
  have h2 : d * (r / d) = r / d * d := Nat.mul_comm d (r / d)
  omega

theorem mod_self_of_div_eq_zero {d r : ℕ} (h : r / d = 0) : r % d = r := by
  rcases Nat.eq_zero_or_pos d with h0 | h0
  · simp [h0]
  · exact Nat.mod_eq_of_lt ((Nat.div_eq_zero_iff h0).mp h)

theorem decomposeGo_total (ds : List ℕ) (r : ℕ) :
    chipTotal (decomposeGo ds r) + decomposeResidual ds r = r := by
  induction ds generalizing r with
  | nil => simp [decomposeGo, decomposeResidual, chipTotal]
  | cons d ds ih =>
    by_cases h : r / d > 0
    · have hrem : r - r / d * d = r % d := decomposeGo_remaining d r
      have hdm : d * (r / d) + r % d = r := Nat.div_add_mod r d
      have ihr := ih (r % d)
      simp only [decomposeResidual, chipTotal] at ihr
      simp only [decomposeGo, if_pos h, hrem, decomposeResidual, List.foldl_cons,
        chipTotal, List.map_cons, List.sum_cons]
      omega
    · have h0 : r / d = 0 := Nat.eq_zero_of_not_pos h
      have hmod : r % d = r := mod_self_of_div_eq_zero h0
      have ihr := ih r
      simp only [decomposeResidual, chipTotal] at ihr
      simp only [decomposeGo, if_neg h, decomposeResidual, List.foldl_cons, hmod,
        chipTotal]
      omega

theorem decomposeGo_counts_pos (ds : List ℕ) (r : ℕ) :
    ∀ p ∈ decomposeGo ds r, 0 < p.2 := by
  induction ds generalizing r with
  | nil => simp [decomposeGo]
  | cons d ds ih =>
    intro p hp
    by_cases h : r / d > 0
    · simp only [decomposeGo, if_pos h, List.mem_cons] at hp
      rcases hp with rfl | hp
      · exact h
      · exact ih _ p hp
    · simp only [decomposeGo, if_neg h] at hp
      exact ih _ p hp

theorem decomposeGo_denoms_sublist (ds : List ℕ) (r : ℕ) :
    ((decomposeGo ds r).map Prod.fst).Sublist ds := by
  induction ds generalizing r with
  | nil => simp [decomposeGo]
  | cons d ds ih =>
    by_cases h : r / d > 0
    · simp only [decomposeGo, if_pos h, List.map_cons]
      exact (ih _).cons₂ d
    · simp only [decomposeGo, if_neg h]
      exact (ih _).cons d

theorem decomposeResidual_chips (r : ℕ) :
    decomposeResidual CHIP_DENOMINATIONS r = r % 5 := by
  show r % 500 % 100 % 50 % 25 % 10 % 5 = r % 5
  rw [Nat.mod_mod_of_dvd _ (by norm_num : (5 : ℕ) ∣ 10),
    Nat.mod_mod_of_dvd _ (by norm_num : (5 : ℕ) ∣ 25),
    Nat.mod_mod_of_dvd _ (by norm_num : (5 : ℕ) ∣ 50),
    Nat.mod_mod_of_dvd _ (by norm_num : (5 : ℕ) ∣ 100),
    Nat.mod_mod_of_dvd _ (by norm_num : (5 : ℕ) ∣ 500)]

/-- C10: `decomposeChips` returns positive counts over strictly decreasing
denominations drawn from `{500, 100, 50, 25, 10, 5}`, its total value is
`amount - amount % 5`, and any multiple of 5 is reconstructed exactly. -/
theorem decomposeChips_correct (amount : ℕ) :
    (∀ p ∈ decomposeChips amount, 0 < p.2) ∧
    (∀ p ∈ decomposeChips amount, p.1 ∈ CHIP_DENOMINATIONS) ∧
    List.Pairwise (· > ·) ((decomposeChips amount).map Prod.fst) ∧
    chipTotal (decomposeChips amount) = amount - amount % 5 ∧
    (amount % 5 = 0 → chipTotal (decomposeChips amount) = amount) := by
  have hsub := decomposeGo_denoms_sublist CHIP_DENOMINATIONS amount
  have htot : chipTotal (decomposeChips amount) + decomposeResidual CHIP_DENOMINATIONS amount =
      amount := decomposeGo_total CHIP_DENOMINATIONS amount
  rw [decomposeResidual_chips] at htot
  have hle : amount % 5 ≤ amount := Nat.mod_le amount 5
  refine ⟨decomposeGo_counts_pos _ _, ?_, ?_, by omega, fun h5 => by omega⟩
  · intro p hp
    exact hsub.subset (List.mem_map_of_mem Prod.fst hp)
  · exact List.Pairwise.sublist hsub (by decide)

/-- Witness for C10 at `amount = 287`: the decomposition is
`[(100, 2), (50, 1), (25, 1), (10, 1)]`, worth `285 = 287 - 287 % 5`. -/
theorem decomposeChips_correct_witness :
    chipTotal (decomposeChips 287) = 287 - 287 % 5 ∧
    (287 % 5 = 0 → chipTotal (decomposeChips 287) = 287) :=
  ⟨(decomposeChips_correct 287).2.2.2.1, (decomposeChips_correct 287).2.2.2.2⟩

/-! ## C1: integer share splitting in the settlement panel and win animation

`SettlementPanel` (`RoomTopBar.tsx`) displays, beside each proposed winner:

```ts
const share = Math.floor(pot.amount / winners.length);
```

`RoomPage.tsx` builds the win-animation credit map when leaving showdown:

```ts
for (const pot of pots) {
  const winners = potWinners[pot.id] || [];
  if (winners.length === 0) continue;
  const share = Math.floor(pot.amount / winners.length);
  for (const wid of winners) {
    winMap.set(wid, (winMap.get(wid) || 0) + share);
  }
}
```
-/

/-- A pot as remembered by the win-animation code (`lastSettlementRef`):
its id and its amount. -/
structure PotStake where
  id : String
  amount : ℕ

/-- The share `SettlementPanel` shows beside each winner of a pot. -/
def settlementShare (potAmount winnersLen : ℕ) : ℤ :=
  jsFloorDiv potAmount winnersLen

/-- The inner `winMap.set(wid, (winMap.get(wid) || 0) + share)` update. -/
def creditWinner (share : ℤ) (acc : String → ℤ) (wid : String) : String → ℤ :=
  fun k => if k = wid then acc wid + share else acc k

/-- One pot's pass of the win-animation loop in `RoomPage`. -/
def winMapStep (potWinners : String → List String) (m : String → ℤ) (pot : PotStake) :
    String → ℤ :=
  if (potWinners pot.id).isEmpty then m
  else (potWinners pot.id).foldl
    (creditWinner (jsFloorDiv pot.amount (potWinners pot.id).length)) m

/-- The full win-animation credit map over the remembered pots, starting from
the empty map (`winMap.get(wid) || 0` reads a missing key as `0`). -/
def winMap (potWinners : String → List String) (pots : List PotStake) : String → ℤ :=
  pots.foldl (winMapStep potWinners) (fun _ => 0)

theorem creditWinner_foldl (share : ℤ) (W : List String) (m : String → ℤ) (k : String) :
    (W.foldl (creditWinner share) m) k = m k + share * (W.count k : ℤ) := by
  induction W generalizing m with
  | nil => simp
  | cons w ws ih =>
    simp only [List.foldl_cons, ih]
    by_cases hk : k = w
    · subst hk
      simp only [creditWinner, if_pos rfl, List.count_cons_self]
      push_cast
      ring
    · simp only [creditWinner, if_neg hk, List.count_cons_of_ne hk]

/-- C1: for a pot with a non-empty winner set, the share the settlement
confirmation panel shows beside each winner and the amount the win animation
credits to each winner both equal `⌊pot.amount / |winners|⌋`
(`Math.floor` of the exact quotient, which is `ℕ` floor division). -/
theorem share_is_floor_div (pot : PotStake) (potWinners : String → List String) (wid : String)
    (hne : potWinners pot.id ≠ []) (hmem : wid ∈ potWinners pot.id)
    (hnd : (potWinners pot.id).Nodup) :
    settlementShare pot.amount (potWinners pot.id).length
        = ((pot.amount / (potWinners pot.id).length : ℕ) : ℤ) ∧
    winMap potWinners [pot] wid
        = ((pot.amount / (potWinners pot.id).length : ℕ) : ℤ) := by
  refine ⟨jsFloorDiv_eq_natDiv _ _, ?_⟩
  unfold winMap winMapStep
  simp only [List.foldl_cons, List.foldl_nil]
  rw [if_neg (by simpa [List.isEmpty_iff] using hne)]
  rw [creditWinner_foldl]
  rw [List.count_eq_one_of_mem hnd hmem]
  simp [jsFloorDiv_eq_natDiv]

/-- Witness for C1: a 100-chip pot split three ways shows and credits
`⌊100 / 3⌋ = 33` per winner. -/
theorem share_is_floor_div_witness :
    settlementShare 100 (["a", "b", "c"] : List String).length = ((100 / 3 : ℕ) : ℤ) ∧
    winMap (fun _ => ["a", "b", "c"]) [⟨"pot-0", 100⟩] "a" = ((100 / 3 : ℕ) : ℤ) :=
  share_is_floor_div ⟨"pot-0", 100⟩ (fun _ => ["a", "b", "c"]) "a"
    (by decide) (by decide) (by decide)

/-! ## `ActionPanel.tsx`: check / call / raise conditions

```ts
const callAmount = currentBet - myBet;
const canCheck = currentBet <= myBet;
const canCall = callAmount > 0 && callAmount <= myChips;
const minRaise = snapToChip(currentBet + bb);
const maxRaise = myChips + myBet;
```

The second grid cell renders the Check button when `canCheck`, otherwise the
Call button when `canCall` (submitting `callAmount`), otherwise nothing.
`ActionPanel`'s `CHIP_DENOMS` is the same list as
`ChipDisplay`'s `CHIP_DENOMINATIONS`.
-/

/-- `callAmount = currentBet - myBet`, JavaScript subtraction (may be
negative). -/
def callAmount (currentBet myBet : ℕ) : ℤ := (currentBet : ℤ) - (myBet : ℤ)

def canCheck (currentBet myBet : ℕ) : Bool := decide (currentBet ≤ myBet)

def canCall (currentBet myBet myChips : ℕ) : Bool :=
  decide (0 < callAmount currentBet myBet) &&
    decide (callAmount currentBet myBet ≤ (myChips : ℤ))

/-- The Call button is rendered iff `canCheck` is false and `canCall` is
true. -/
def showCallButton (currentBet myBet myChips : ℕ) : Bool :=
  !canCheck currentBet myBet && canCall currentBet myBet myChips

/-- Modelled from the spec: `check` legal iff
`player.current_bet == hand.current_bet` (the server engine is not part of
the sources; this is §4.1.3's admissibility rule). -/
def specCheckLegal (currentBet myBet : ℕ) : Prop := myBet = currentBet

/-- Modelled from the spec: `call` legal iff
`hand.current_bet > player.current_bet` (§4.1.3; the server engine is not
part of the sources). -/
def specCallLegal (currentBet myBet : ℕ) : Prop := myBet < currentBet

/-- Modelled from the spec: the call contribution
`min(hand.current_bet − player.current_bet, player.chips)` (§4.1.3). -/
def specCallContribution (currentBet myBet myChips : ℕ) : ℤ :=
  min (callAmount currentBet myBet) (myChips : ℤ)

/-- C4: under the spec invariant that `hand.current_bet` is at least every
player's `current_bet`, the `currentBet <= myBet` test of the Check button
coincides with the spec's equality condition. -/
theorem check_button_iff (currentBet myBet : ℕ) (hinv : myBet ≤ currentBet) :
    canCheck currentBet myBet = true ↔ specCheckLegal currentBet myBet := by
  simp only [canCheck, specCheckLegal, decide_eq_true_eq]
  omega

/-- Witness for C4 at `currentBet = myBet = 20`. -/
theorem check_button_iff_witness :
    canCheck 20 20 = true ↔ specCheckLegal 20 20 :=
  check_button_iff 20 20 (le_refl 20)

/-- C3 counterexample: facing a bet of 100 with a stack of 50 and nothing yet
in front, the facing bet exceeds the player's current bet (the spec's call
condition holds), but the panel does not offer the Call button because
`callAmount > myChips`. -/
theorem call_button_cex :
    specCallLegal 100 0 ∧ showCallButton 100 0 50 = false := by
  constructor
  · simp [specCallLegal]
  · decide

/-- C3 amended: the panel offers the Call button exactly when the facing bet
exceeds the player's current bet AND the difference is at most the player's
chips; when offered, the submitted `callAmount` equals the spec contribution
`min(currentBet − myBet, chips)`. -/
theorem call_button_correct (currentBet myBet myChips : ℕ) :
    (showCallButton currentBet myBet myChips = true ↔
      specCallLegal currentBet myBet ∧ callAmount currentBet myBet ≤ (myChips : ℤ)) ∧
    (showCallButton currentBet myBet myChips = true →
      callAmount currentBet myBet = specCallContribution currentBet myBet myChips) := by
  simp only [showCallButton, canCheck, canCall, callAmount, specCallLegal,
    specCallContribution, Bool.and_eq_true, Bool.not_eq_true', decide_eq_true_eq,
    decide_eq_false_iff_not]
  constructor
  · constructor
    · rintro ⟨h1, h2, h3⟩
      exact ⟨by omega, h3⟩
    · rintro ⟨h1, h2⟩
      exact ⟨by omega, by omega, h2⟩
  · rintro ⟨h1, h2, h3⟩
    omega

/-- Witness for C3 (amended) at `currentBet = 20`, `myBet = 0`,
`myChips = 50`: the Call button is offered and submits the spec
contribution. -/
theorem call_button_correct_witness :
    showCallButton 20 0 50 = true ∧ callAmount 20 0 = specCallContribution 20 0 50 :=
  ⟨by decide, (call_button_correct 20 0 50).2 (by decide)⟩

/-! ## C2: the raise sub-panel

```ts
const quickRaises = ... [
  twoBB   = snapToChip(bb * 2 + currentBet)          if > currentBet && <= myChips + myBet,
  halfPot = snapToChip(Math.floor(pot / 2) + currentBet)  same guard,
  fullPot = snapToChip(pot + currentBet)             same guard ];
...
const effectiveRaise = raiseAmount || minRaise;      // opens at minRaise
const addChip    = d => { const next = effectiveRaise + d; if (next <= maxRaise) setRaiseAmount(next); };
const removeChip = d => { const next = effectiveRaise - d; if (next >= minRaise) setRaiseAmount(next); };
// preset buttons: setRaiseAmount(q.amount)
// submit: onAction('raise', effectiveRaise)
```
-/

/-- The quick-raise preset amounts (`quickRaises` in `ActionPanel`). -/
def quickRaiseAmounts (currentBet bb pot myChips myBet : ℕ) : List ℕ :=
  (if snapToChip (bb * 2 + currentBet) > currentBet ∧
      snapToChip (bb * 2 + currentBet) ≤ myChips + myBet
    then [snapToChip (bb * 2 + currentBet)] else []) ++
  (if snapToChip (pot / 2 + currentBet) > currentBet ∧
      snapToChip (pot / 2 + currentBet) ≤ myChips + myBet
    then [snapToChip (pot / 2 + currentBet)] else []) ++
  (if snapToChip (pot + currentBet) > currentBet ∧
      snapToChip (pot + currentBet) ≤ myChips + myBet
    then [snapToChip (pot + currentBet)] else [])

/-- The raise totals the player can compose and submit through the raise
sub-panel: it opens at `minRaise = snapToChip(currentBet + bb)`; a preset
button jumps to a quick-raise amount; an add-chip button adds `d` while the
result stays ≤ `maxRaise = myChips + myBet`; a remove-chip button subtracts
`d` while the result stays ≥ `minRaise`.  The confirm button submits any
total so reached. -/
inductive RaiseReachable (currentBet bb pot myChips myBet : ℕ) : ℕ → Prop
  | init : RaiseReachable currentBet bb pot myChips myBet (snapToChip (currentBet + bb))
  | preset {q : ℕ} : q ∈ quickRaiseAmounts currentBet bb pot myChips myBet →
      RaiseReachable currentBet bb pot myChips myBet q
  | add {t d : ℕ} : RaiseReachable currentBet bb pot myChips myBet t →
      d ∈ CHIP_DENOMINATIONS → t + d ≤ myChips + myBet →
      RaiseReachable currentBet bb pot myChips myBet (t + d)
  | remove {t d : ℕ} : RaiseReachable currentBet bb pot myChips myBet t →
      d ∈ CHIP_DENOMINATIONS → snapToChip (currentBet + bb) + d ≤ t →
      RaiseReachable currentBet bb pot myChips myBet (t - d)

/-- Modelled from the spec: `raise to T` legal iff
`T ≥ hand.current_bet + bb_amount` (min-raise) and
`T ≤ player.chips + player.current_bet` (covered); §4.1.3 additionally
requires that action has not been closed to reopening, which only further
restricts legality.  The server engine is not part of the sources. -/
def specRaiseLegal (currentBet bb myChips myBet t : ℕ) : Prop :=
  currentBet + bb ≤ t ∧ t ≤ myChips + myBet

theorem quickRaise_mem_bounds {currentBet bb pot myChips myBet q : ℕ}
    (hq : q ∈ quickRaiseAmounts currentBet bb pot myChips myBet) :
    currentBet < q ∧ q ≤ myChips + myBet := by
  unfold quickRaiseAmounts at hq
  simp only [List.mem_append] at hq
  rcases hq with (hq | hq) | hq
  · split_ifs at hq with h
    · simp only [List.mem_singleton] at hq; subst hq; exact h
    · simp at hq
  · split_ifs at hq with h
    · simp only [List.mem_singleton] at hq; subst hq; exact h
    · simp at hq
  · split_ifs at hq with h
    · simp only [List.mem_singleton] at hq; subst hq; exact h
    · simp at hq

theorem chip_denom_pos : ∀ d ∈ CHIP_DENOMINATIONS, 0 < d := by decide

/-- C2 counterexample: with `current_bet = 20` and `bb = 2` (stack 100,
nothing in front, pot 30), the raise panel opens at
`snapToChip(20 + 2) = 20` and the player can submit that total as-is, yet
`20 < 20 + 2`: the submitted raise violates the min-raise bound of the
claim. -/
theorem raise_panel_cex :
    RaiseReachable 20 2 30 100 0 20 ∧ ¬ specRaiseLegal 20 2 100 0 20 := by
  have h : snapToChip (20 + 2) = 20 := by rw [snapToChip_eq]
  constructor
  · have hinit : RaiseReachable 20 2 30 100 0 (snapToChip (20 + 2)) := RaiseReachable.init
    rwa [h] at hinit
  · intro hlegal
    simp only [specRaiseLegal] at hlegal
    omega

/-- C2 amended: every raise total the panel lets the player compose and
submit is at most `maxRaise = myChips + myBet` unless it is the opening
total `snapToChip(currentBet + bb)` itself, and is at least
`snapToChip(currentBet + bb)` unless it descends from a quick-raise preset,
in which case it still exceeds `currentBet`.  The exact spec bounds
`currentBet + bb ≤ T ≤ myChips + myBet` do not hold of every composable
total, because `snapToChip` rounds to the nearest multiple of 5 (possibly
below `currentBet + bb`, and possibly above `myChips + myBet`) and the
half-pot/full-pot presets are only guarded to exceed `currentBet`. -/
theorem raise_panel_bounds (currentBet bb pot myChips myBet t : ℕ)
    (h : RaiseReachable currentBet bb pot myChips myBet t) :
    (t ≤ myChips + myBet ∨ t = snapToChip (currentBet + bb)) ∧
    (snapToChip (currentBet + bb) ≤ t ∨ currentBet < t) := by
  induction h with
  | init => exact ⟨Or.inr rfl, Or.inl le_rfl⟩
  | preset hq =>
    obtain ⟨hgt, hle⟩ := quickRaise_mem_bounds hq
    exact ⟨Or.inl hle, Or.inr hgt⟩
  | add ht hd hle ih =>
    refine ⟨Or.inl hle, ?_⟩
    rcases ih.2 with h1 | h1
    · exact Or.inl (by omega)
    · exact Or.inr (by omega)
  | remove ht hd hguard ih =>
    have hdpos := chip_denom_pos _ hd
    refine ⟨?_, Or.inl (by omega)⟩
    rcases ih.1 with h1 | h1
    · exact Or.inl (by omega)
    · omega

/-- Witness for C2 (amended) at `currentBet = 0`, `bb = 10`, stack 100: the
opening total `snapToChip 10` satisfies both disjunctions. -/
theorem raise_panel_bounds_witness :
    (snapToChip (0 + 10) ≤ 100 + 0 ∨ snapToChip (0 + 10) = snapToChip (0 + 10)) ∧
    (snapToChip (0 + 10) ≤ snapToChip (0 + 10) ∨ 0 < snapToChip (0 + 10)) :=
  raise_panel_bounds 0 10 0 100 0 (snapToChip (0 + 10)) RaiseReachable.init

/-! ## C5: winner selection in `SettlementPanel`

```ts
const toggleWinner = (potId: string, pid: string) => {
  setPotWinners(prev => {
    const current = prev[potId] || [];
    if (current.includes(pid)) {
      return { ...prev, [potId]: current.filter(id => id !== pid) };
    } else {
      return { ...prev, [potId]: [...current, pid] };
    }
  });
};
...
// buttons are rendered with `pot.eligible_players.map(pid => ... toggleWinner(pot.id, pid))`
const allPotsHaveWinners = pots.every(pot => (potWinners[pot.id] || []).length > 0);
// submit: disabled={!allPotsHaveWinners}; onClick fires onPropose(potWinners) only if allPotsHaveWinners
```
-/

/-- `PotInfo` from `types.ts`. -/
structure PotInfo where
  id : String
  amount : ℕ
  eligible_players : List String

/-- The `potWinners` component state: pot id to selected winners
(`prev[potId] || []` reads a missing key as `[]`). -/
def PotWinnersState := String → List String

/-- `toggleWinner(potId, pid)` from `SettlementPanel`. -/
def toggleWinner (potId pid : String) (prev : PotWinnersState) : PotWinnersState :=
  fun k =>
    if k = potId then
      if pid ∈ prev potId then (prev potId).filter (fun i => i ≠ pid)
      else prev potId ++ [pid]
    else prev k

/-- `allPotsHaveWinners` from `SettlementPanel`. -/
def allPotsHaveWinners (pots : List PotInfo) (s : PotWinnersState) : Bool :=
  pots.all fun pot => decide (0 < (s pot.id).length)

/-- The `potWinners` states the panel can be in: it starts empty, and is only
modified through `toggleWinner(pot.id, pid)` for a button rendered over some
`pot ∈ pots` and `pid ∈ pot.eligible_players`. -/
inductive SelectionReachable (pots : List PotInfo) : PotWinnersState → Prop
  | empty : SelectionReachable pots (fun _ => [])
  | toggle {s : PotWinnersState} (pot : PotInfo) (pid : String) :
      SelectionReachable pots s → pot ∈ pots → pid ∈ pot.eligible_players →
      SelectionReachable pots (toggleWinner pot.id pid s)

/-- The selection invariant: every pot's selected winners are eligible and
duplicate-free. -/
def SelValid (pots : List PotInfo) (s : PotWinnersState) : Prop :=
  ∀ pot ∈ pots, (∀ pid ∈ s pot.id, pid ∈ pot.eligible_players) ∧ (s pot.id).Nodup

theorem toggleWinner_preserves {pots : List PotInfo} {s : PotWinnersState}
    {pot : PotInfo} {pid : String}
    (hids : (pots.map PotInfo.id).Nodup)
    (hpot : pot ∈ pots) (helig : pid ∈ pot.eligible_players)
    (hvalid : SelValid pots s) :
    SelValid pots (toggleWinner pot.id pid s) := by
  intro pot' hpot'
  obtain ⟨ihsub, ihnd⟩ := hvalid pot' hpot'
  by_cases hid : pot'.id = pot.id
  · have hpp : pot' = pot := List.inj_on_of_nodup_map hids hpot' hpot hid
    subst hpp
    simp only [toggleWinner, eq_self_iff_true, if_true]
    by_cases hmem : pid ∈ s pot'.id
    · rw [if_pos hmem]
      refine ⟨fun q hq => ihsub q (List.mem_of_mem_filter hq), ihnd.filter _⟩
    · rw [if_neg hmem]
      constructor
      · intro q hq
        rcases List.mem_append.mp hq with hq | hq
        · exact ihsub q hq
        · rw [List.mem_singleton.mp hq]; exact helig
      · rw [List.nodup_append]
        exact ⟨ihnd, List.nodup_singleton pid, by
          simp only [List.disjoint_singleton]
          exact hmem⟩
  · simp only [toggleWinner, if_neg hid]
    exact ⟨ihsub, ihnd⟩

theorem toggleWinner_subset {pots : List PotInfo} {s : PotWinnersState}
    (h : SelectionReachable pots s)
    (hids : (pots.map PotInfo.id).Nodup) :
    SelValid pots s := by
  induction h with
  | empty => intro pot _; exact ⟨fun pid h => absurd h (List.not_mem_nil pid), List.nodup_nil⟩
  | toggle pot pid hs hpot helig ih =>
    exact toggleWinner_preserves hids hpot helig ih

/-- C5: any winner assignment the settlement panel can submit — a reachable
selection state passing the `allPotsHaveWinners` submit guard — maps every
pot (pot ids being distinct) to a non-empty duplicate-free subset of that
pot's `eligible_players`. -/
theorem submit_selection_valid (pots : List PotInfo) (s : PotWinnersState)
    (h : SelectionReachable pots s)
    (hids : (pots.map PotInfo.id).Nodup)
    (hsubmit : allPotsHaveWinners pots s = true) :
    ∀ pot ∈ pots, s pot.id ≠ [] ∧ (s pot.id).Nodup ∧
      ∀ pid ∈ s pot.id, pid ∈ pot.eligible_players := by
  intro pot hpot
  obtain ⟨hsub, hnd⟩ := toggleWinner_subset h hids pot hpot
  have hne : 0 < (s pot.id).length := by
    have := (List.all_eq_true.mp hsubmit) pot hpot
    simpa using this
  exact ⟨List.ne_nil_of_length_pos hne, hnd, hsub⟩

/-- Witness for C5: two pots, toggling one eligible winner for each; the
submit guard passes and the first pot's submitted winner set is non-empty
and duplicate-free. -/
theorem submit_selection_valid_witness :
    toggleWinner "pot-1" "b" (toggleWinner "pot-0" "a" (fun _ => []))
        (PotInfo.mk "pot-0" 300 ["a", "b"]).id ≠ [] ∧
    (toggleWinner "pot-1" "b" (toggleWinner "pot-0" "a" (fun _ => []))
        (PotInfo.mk "pot-0" 300 ["a", "b"]).id).Nodup :=
  ⟨(submit_selection_valid
      [PotInfo.mk "pot-0" 300 ["a", "b"], PotInfo.mk "pot-1" 200 ["b"]]
      (toggleWinner "pot-1" "b" (toggleWinner "pot-0" "a" (fun _ => [])))
      (SelectionReachable.toggle (PotInfo.mk "pot-1" 200 ["b"]) "b"
        (SelectionReachable.toggle (PotInfo.mk "pot-0" 300 ["a", "b"]) "a"
          SelectionReachable.empty (by simp) (by simp))
        (by simp) (by simp))
      (by simp)
      (by decide)
      (PotInfo.mk "pot-0" 300 ["a", "b"]) (by simp)).1,
   (submit_selection_valid
      [PotInfo.mk "pot-0" 300 ["a", "b"], PotInfo.mk "pot-1" 200 ["b"]]
      (toggleWinner "pot-1" "b" (toggleWinner "pot-0" "a" (fun _ => [])))
      (SelectionReachable.toggle (PotInfo.mk "pot-1" 200 ["b"]) "b"
        (SelectionReachable.toggle (PotInfo.mk "pot-0" 300 ["a", "b"]) "a"
          SelectionReachable.empty (by simp) (by simp))
        (by simp) (by simp))
      (by simp)
      (by decide)
      (PotInfo.mk "pot-0" 300 ["a", "b"]) (by simp)).2.1⟩

/-! ## C6, C7: rebuy and cashout offers in `RoomPage.tsx`

```ts
const canRebuy = isWaiting && myPlayer && myPlayer.chips <= room.rebuy_minimum;
const canCashout = isWaiting && myPlayer && room.max_chips > 0 && myPlayer.chips > room.max_chips;
...
<button onClick={handleCashout}>清码 -{room.initial_chips} → 剩余 {myPlayer.chips - room.initial_chips}</button>
```
-/

/-- Room status (`types.ts`). -/
inductive RoomStatus
  | waiting
  | playing
  | finished
  deriving DecidableEq

/-- `canRebuy` from `RoomPage` (the `myPlayer` truthiness check is the
player's presence, taken as given; chips are JS integers, modelled in ℤ). -/
def canRebuy (status : RoomStatus) (chips rebuyMinimum : ℤ) : Bool :=
  decide (status = RoomStatus.waiting) && decide (chips ≤ rebuyMinimum)

/-- `canCashout` from `RoomPage`. -/
def canCashout (status : RoomStatus) (chips maxChips : ℤ) : Bool :=
  decide (status = RoomStatus.waiting) && decide (0 < maxChips) && decide (maxChips < chips)

/-- The post-cashout stack printed on the cashout button:
`myPlayer.chips - room.initial_chips`. -/
def cashoutButtonRemaining (chips initialChips : ℤ) : ℤ := chips - initialChips

/-- The player fields touched by a cashout. -/
structure PlayerLedger where
  chips : ℤ
  total_cashouts : ℕ

/-- Modelled from the spec: `cashout(player_id)` "subtracts `initial_chips`,
increments `total_cashouts`" (§4.1.1; the server engine is not part of the
sources). -/
def specCashout (p : PlayerLedger) (initialChips : ℤ) : PlayerLedger :=
  { chips := p.chips - initialChips, total_cashouts := p.total_cashouts + 1 }

/-- C6: in a `waiting` room, with non-negative chips, the rebuy offer holds
iff `chips ≤ rebuy_minimum`; when `rebuy_minimum = 0` that is exactly
`chips = 0`. -/
theorem rebuy_offer_iff (chips rebuyMinimum : ℤ) (hnn : 0 ≤ chips) :
    (canRebuy RoomStatus.waiting chips rebuyMinimum = true ↔ chips ≤ rebuyMinimum) ∧
    (rebuyMinimum = 0 →
      (canRebuy RoomStatus.waiting chips rebuyMinimum = true ↔ chips = 0)) := by
  simp only [canRebuy, Bool.and_eq_true, decide_eq_true_eq, eq_self_iff_true, true_and]
  intro h
  subst h
  omega

/-- Witness for C6 at `chips = 0`, `rebuy_minimum = 0`. -/
theorem rebuy_offer_iff_witness :
    (canRebuy RoomStatus.waiting 0 0 = true ↔ (0 : ℤ) ≤ 0) ∧
    ((0 : ℤ) = 0 → (canRebuy RoomStatus.waiting 0 0 = true ↔ (0 : ℤ) = 0)) :=
  rebuy_offer_iff 0 0 (le_refl 0)

/-- C7: in a `waiting` room the cashout offer holds iff `max_chips > 0` and
`chips > max_chips`; the stack the cashout button predicts equals the chips
after the spec-modelled cashout, which also increments `total_cashouts`. -/
theorem cashout_offer_iff (chips maxChips initialChips : ℤ) (cashouts : ℕ) :
    (canCashout RoomStatus.waiting chips maxChips = true ↔
      0 < maxChips ∧ maxChips < chips) ∧
    cashoutButtonRemaining chips initialChips =
      (specCashout ⟨chips, cashouts⟩ initialChips).chips ∧
    (specCashout ⟨chips, cashouts⟩ initialChips).total_cashouts = cashouts + 1 := by
  refine ⟨?_, rfl, rfl⟩
  simp [canCashout]

/-! ## C8: WebSocket close handling in `useRoomWebSocket.ts`

```ts
socket.onclose = (event) => {
  setConnected(false);
  if (pingTimer.current) clearInterval(pingTimer.current);
  if (event.code === 4001) {
    setRoomId(null);      // clears roomId and the persisted copy
    navigate('/');
    return;
  }
  reconnectTimer.current = setTimeout(() => connect(), 2000);
};
```
-/

/-- Client connection state touched by the close handler. -/
structure ClientConn where
  connected : Bool
  roomId : Option String
  pingActive : Bool

/-- What the close handler schedules next. -/
inductive CloseAction
  | navigateHome
  | reconnectAfter (ms : ℕ)
  deriving DecidableEq

/-- `socket.onclose` from `useRoomWebSocket`. -/
def onCloseHandler (code : ℕ) (s : ClientConn) : ClientConn × CloseAction :=
  let s1 : ClientConn := { s with connected := false, pingActive := false }
  if code = 4001 then ({ s1 with roomId := none }, CloseAction.navigateHome)
  else (s1, CloseAction.reconnectAfter 2000)

/-- C8: close code 4001 clears the room id and navigates back to admission
without reconnecting; every other close code schedules a reconnect after
2000 ms; either way the client is marked disconnected. -/
theorem close_code_handling (code : ℕ) (s : ClientConn) :
    (code = 4001 → (onCloseHandler code s).1.roomId = none ∧
      (onCloseHandler code s).2 = CloseAction.navigateHome) ∧
    (code ≠ 4001 → (onCloseHandler code s).2 = CloseAction.reconnectAfter 2000) ∧
    (onCloseHandler code s).1.connected = false := by
  unfold onCloseHandler
  by_cases h : code = 4001 <;> simp [h]

/-- Witness for C8 at codes 4001 and 1006. -/
theorem close_code_handling_witness :
    ((onCloseHandler 4001 ⟨true, some "r", true⟩).1.roomId = none ∧
      (onCloseHandler 4001 ⟨true, some "r", true⟩).2 = CloseAction.navigateHome) ∧
    (onCloseHandler 1006 ⟨true, some "r", true⟩).2 = CloseAction.reconnectAfter 2000 :=
  ⟨(close_code_handling 4001 ⟨true, some "r", true⟩).1 rfl,
   (close_code_handling 1006 ⟨true, some "r", true⟩).2.1 (by decide)⟩

/-! ## C9: the device identity in `store.ts`

```ts
function getDeviceId(): string {
  let id = localStorage.getItem('holdem_device_id');
  if (!id) {
    id = crypto.randomUUID?.() || `${Date.now().toString(36)}_${Math.random()...}`;
    localStorage.setItem('holdem_device_id', id);
  }
  return id;
}
export const useStore = create<AppState>((set, get) => ({
  playerId: getDeviceId(), ...
```
-/

/-- The client's `localStorage`, as an association list; later writes shadow
earlier entries. -/
abbrev LocalStorage := List (String × String)

def lsGetItem (ls : LocalStorage) (key : String) : Option String :=
  (ls.find? fun e => e.1 == key).map Prod.snd

def lsSetItem (ls : LocalStorage) (key value : String) : LocalStorage :=
  (key, value) :: ls

/-- `getDeviceId` from `store.ts`: read `holdem_device_id`; if the stored
value is missing or falsy (`!id`, i.e. absent or the empty string), generate
a fresh id — `gen` stands for `crypto.randomUUID()` or the time-and-random
fallback, both non-empty — persist it, and return it.  Returns the id
together with the updated storage. -/
def getDeviceId (gen : String) (ls : LocalStorage) : String × LocalStorage :=
  match lsGetItem ls "holdem_device_id" with
  | some id =>
    if id = "" then (gen, lsSetItem ls "holdem_device_id" gen) else (id, ls)
  | none => (gen, lsSetItem ls "holdem_device_id" gen)

/-- `playerId: getDeviceId()` — the store's player id is initialized from the
device id. -/
def storeInitPlayerId (gen : String) (ls : LocalStorage) : String :=
  (getDeviceId gen ls).1

theorem lsGetItem_setItem (ls : LocalStorage) (key value : String) :
    lsGetItem (lsSetItem ls key value) key = some value := by
  simp [lsGetItem, lsSetItem, List.find?]

/-- C9: `getDeviceId` is idempotent — after one call persists an identifier,
every later call (with any fresh candidate `gen2`) returns the same
identifier and leaves the storage unchanged — and the store's `playerId` is
initialized from it. -/
theorem getDeviceId_idempotent (gen gen2 : String) (ls : LocalStorage) (hgen : gen ≠ "") :
    getDeviceId gen2 (getDeviceId gen ls).2 = getDeviceId gen ls ∧
    storeInitPlayerId gen ls = (getDeviceId gen ls).1 := by
  refine ⟨?_, rfl⟩
  cases hfind : lsGetItem ls "holdem_device_id" with
  | none =>
    simp only [getDeviceId, hfind, lsGetItem_setItem, if_neg hgen]
  | some id =>
    by_cases hid : id = ""
    · subst hid
      simp only [getDeviceId, hfind, eq_self_iff_true, if_true, lsGetItem_setItem,
        if_neg hgen]
    · simp only [getDeviceId, hfind, if_neg hid]

/-- Witness for C9: starting from empty storage with fresh id `"uuid-a"`, a
second call with a different candidate returns the same pair. -/
theorem getDeviceId_idempotent_witness :
    getDeviceId "uuid-b" (getDeviceId "uuid-a" []).2 = getDeviceId "uuid-a" [] ∧
    storeInitPlayerId "uuid-a" [] = (getDeviceId "uuid-a" []).1 :=
  getDeviceId_idempotent "uuid-a" "uuid-b" [] (by decide)

end Holdem
